import Mathlib

/-!
Shallow embedding of `qr.go` from Sophuwu300/qrstr.

Go strings are modelled as `List Char` (the repository only ever wraps and
frames ASCII header text and fixed block glyphs, so byte indexing and char
indexing agree on all inputs of interest).  Go `nil` pointers are modelled
with `Option`; a Go function that can return an `error` is modelled with
`Except String`; a Go function that can fail to terminate (the hard-split
loop of `wrap` does not advance when its step `w` is `0`) is modelled with
an outer `Option`, where `none` stands for divergence.
-/

namespace QR

/-- `const blank rune = ' '` -/
def blank : Char := ' '

/-- `const upper rune = '▀'` -/
def upper : Char := '▀'

/-- `const lower rune = '▄'` -/
def lower : Char := '▄'

/-- `const whole rune = '█'` -/
def whole : Char := '█'

/-- `pad` from qr.go: `strings.Repeat(string(r), n)`, with `n == 0` giving
the empty string and negative `n` treated as `1`.  All call sites in qr.go
pass an explicit rune, so the variadic default branch is not modelled. -/
def pad (n : Int) (r : Char) : List Char :=
  if n = 0 then [] else List.replicate (max n 1).toNat r

/-- `strings.Split(l, " ")`: split on every single space, keeping empty
fields; the result is never the empty list. -/
def splitOnSpace : List Char → List (List Char)
  | [] => [[]]
  | c :: cs =>
    if c = ' ' then [] :: splitOnSpace cs
    else
      match splitOnSpace cs with
      | [] => [[c]]
      | w :: ws => (c :: w) :: ws

/-- `strings.TrimSuffix(line, " ")`: remove one trailing space if present. -/
def trimSuffixSpace (l : List Char) : List Char :=
  if l.getLast? = some ' ' then l.dropLast else l

/-- `strings.TrimSuffix(s, suf)` for a general suffix. -/
def trimSuffix (s suf : List Char) : List Char :=
  if suf.isSuffixOf s then s.take (s.length - suf.length) else s

/-- The hard-split loop of `wrap` (qr.go lines 89–96):
`for j = 0; j < len(v); j += w { if j+w < len(v) { lines = append(lines,
v[j:j+w]+"-") } else { line = v[j:] + " " } }`, phrased on the suffix
`r = v[j:]` that remains to be processed.  `fuel` bounds the number of
iterations; the caller passes `v.length`, which suffices whenever `w ≥ 1`.
When `w = 0` the Go loop does not advance `j` and never terminates, which
the model reports as `none`.  The result is the list of emitted chunk
lines together with the final value of the accumulator `line`. -/
def hardSplitF : Nat → Nat → List Char → List Char →
    Option (List (List Char) × List Char)
  | _, _, [], line => some ([], line)
  | 0, _, _ :: _, _ => none
  | fuel + 1, w, c :: rest, line =>
    if w = 0 then none
    else if w < (c :: rest).length then
      match hardSplitF fuel w ((c :: rest).drop w) line with
      | none => none
      | some (cs, l2) => some (((c :: rest).take w ++ ['-']) :: cs, l2)
    else some ([], (c :: rest) ++ [' '])

/-- Entry point of the hard-split loop, at `j = 0`. -/
def hardSplit (w : Nat) (v line : List Char) :
    Option (List (List Char) × List Char) :=
  hardSplitF v.length w v line

/-- The word loop of `wrap` (qr.go lines 87–110): greedily pack the words
`b` of one input line into the accumulator `line`, appending finished
output lines to `lines`.  `rest = []` plays the role of `i == len(b)-1`. -/
def wrapWords (w : Nat) :
    List (List Char) → List Char → List (List Char) →
    Option (List (List Char) × List Char)
  | lines, line, [] => some (lines, line)
  | lines, line, v :: rest =>
    if w < v.length then
      match hardSplit w v line with
      | none => none
      | some (cs, line2) => wrapWords w (lines ++ cs) line2 rest
    else if line.length + v.length < w then
      if rest = [] then
        wrapWords w (lines ++ [trimSuffixSpace (line ++ v ++ [' '])]) [] rest
      else wrapWords w lines (line ++ v ++ [' ']) rest
    else wrapWords w (lines ++ [trimSuffixSpace line]) [] rest

/-- The outer loop of `wrap` (qr.go lines 80–111) over the input lines.
Both `lines` and the accumulator `line` are declared outside this loop in
the Go code, so both are threaded through. -/
def wrapLines (w : Nat) :
    List (List Char) × List Char → List (List Char) →
    Option (List (List Char) × List Char)
  | st, [] => some st
  | (lines, line), l :: rest =>
    if l.length < w then wrapLines w (lines ++ [l], line) rest
    else
      match wrapWords w lines line (splitOnSpace l) with
      | none => none
      | some st2 => wrapLines w st2 rest

/-- `wrap(w, s...)` from qr.go: decrement `w`, process each input line,
return the collected output lines (`slices.Clip` keeps the contents).
`none` models the divergence of the hard-split loop at effective width 0.
Widths are modelled as `Nat`; for `width ≥ 1` (the domain of every claim)
`width - 1` agrees with the Go `w--`. -/
def wrap (width : Nat) (s : List (List Char)) : Option (List (List Char)) :=
  (wrapLines (width - 1) ([], []) s).map (·.1)

/-- A bilevel pixel grid, the read-only view of the generated QR
`image.Image`: `px x y = true` models `code.At(x, y) == color.Black`. -/
structure Grid where
  dx : Nat
  dy : Nat
  px : Nat → Nat → Bool

/-- `runeCol.getRune` (qr.go lines 52–63): index the palette with
`(top==Black) | (bottom==Black)<<1`.  Both palettes have four entries and
the index is at most 3, so the `getD` default is never consulted. -/
def getRune (c : List Char) (top bot : Bool) : Char :=
  c.getD ((if top then 1 else 0) + (if bot then 2 else 0)) ' '

/-- `var lightMode = runeCol{blank, upper, lower, whole}` -/
def lightMode : List Char := [blank, upper, lower, whole]

/-- `var darkMode = runeCol{whole, lower, upper, blank}` -/
def darkMode : List Char := [whole, lower, upper, blank]

/-- One body row of the text renderer: the inner loop over `x` for the row
pair `(y, y+1)`, via `rc.addRune(&output, code.At(x,y), code.At(x,y+1))`. -/
def rowPair (rc : List Char) (g : Grid) (y : Nat) : List Char :=
  (List.range g.dx).map fun x => getRune rc (g.px x y) (g.px x (y + 1))

/-- The final unpaired body row when `dy` is odd:
`rc.addRune(&output, code.At(x,y), color.White)`. -/
def rowLast (rc : List Char) (g : Grid) (y : Nat) : List Char :=
  (List.range g.dx).map fun x => getRune rc (g.px x y) false

/-- The top border of the headerless text renderer (qr.go line 163). -/
def headNone (dx : Nat) (wr : Char) : List Char := pad (dx + 2) wr ++ ['\n']

/-- One framed header line (qr.go lines 153–157). -/
def headerLine (dx : Nat) (v : List Char) : List Char :=
  [whole, blank] ++ v ++ pad ((dx : Int) - v.length + 1) blank ++ [whole] ++ ['\n']

/-- The top border above the header (qr.go line 152). -/
def headTop (dx : Nat) : List Char := [whole] ++ pad (dx + 2) upper ++ [whole] ++ ['\n']

/-- The divider and blank line between header and body (qr.go line 159). -/
def headDiv (dx : Nat) (wr : Char) : List Char :=
  [whole] ++ pad (dx + 2) lower ++ [whole] ++ ['\n']
    ++ [whole] ++ pad (dx + 2) wr ++ [whole] ++ ['\n']

/-- The whole header block when headers are present (qr.go lines 151–159). -/
def headSome (dx : Nat) (wr : Char) (ws : List (List Char)) : List Char :=
  headTop dx ++ (ws.map (headerLine dx)).flatten ++ headDiv dx wr

/-- The left border of a body line: `prefix` before the loop (qr.go
lines 146, 160). -/
def textPfx (hashead : Bool) (wr : Char) : List Char :=
  if hashead then [whole, wr] else [wr]

/-- The right border plus newline of a body line: `suffix` (qr.go
lines 147, 161). -/
def textSfx (hashead : Bool) (wr : Char) : List Char :=
  if hashead then [wr, whole, '\n'] else [wr, '\n']

/-- The paired-row body loop (qr.go lines 170–175); `p2 = suffix + prefix`
is appended after every glyph row. -/
def textBody (rc : List Char) (g : Grid) (p2 : List Char) : List Char :=
  ((List.range (g.dy / 2)).map fun k => rowPair rc g (2 * k) ++ p2).flatten

/-- `output` just after the body loop: header block, first `prefix`, then
the paired rows (qr.go lines 166–175). -/
def textOut1 (rc : List Char) (g : Grid) (hh : Bool) (wr : Char)
    (head : List Char) : List Char :=
  head ++ textPfx hh wr ++ textBody rc g (textSfx hh wr ++ textPfx hh wr)

/-- `output` after the odd-row / terminator fix-up (qr.go lines 176–183):
odd `dy` appends the final unpaired row, even `dy` swaps the dangling
`suffix+prefix` for a bare `suffix`. -/
def textOut2 (rc : List Char) (g : Grid) (hh : Bool) (wr : Char)
    (head : List Char) : List Char :=
  if g.dy % 2 = 1 then
    textOut1 rc g hh wr head ++ rowLast rc g (g.dy - 1) ++ textSfx hh wr
  else
    trimSuffix (textOut1 rc g hh wr head) (textSfx hh wr ++ textPfx hh wr)
      ++ textSfx hh wr

/-- The full text rendering for a given header block (qr.go lines 166–189):
body plus the closing border, which is `dx+4` wide with a header and
`dx+2` wide without. -/
def textAssemble (rc : List Char) (g : Grid) (hh : Bool) (wr : Char)
    (head : List Char) : List Char :=
  textOut2 rc g hh wr head
    ++ pad ((if hh then g.dx + 4 else g.dx + 2 : Nat) : Int) wr ++ ['\n']

/-- `text` (qr.go lines 138–192), the monospace renderer.  `none` models
divergence of the `wrap` call on the headers; `Except.error` models the
returned Go error. -/
def text (rc? : Option (List Char)) (g? : Option Grid)
    (headers : List (List Char)) : Option (Except String (List Char)) :=
  match rc?, g? with
  | some rc, some g =>
    if headers = [] then
      some (.ok (textAssemble rc g false (getRune rc false false)
        (headNone g.dx (getRune rc false false))))
    else
      match wrap g.dx headers with
      | none => none
      | some ws =>
        some (.ok (textAssemble rc g true (getRune rc false false)
          (headSome g.dx (getRune rc false false) ws)))
  | _, _ => some (.error "encoder misconfigured, use NewEncoder when creating it")

/-- The ANSI sequence `front = "\033[40;97m"` of the TerminalMode closure. -/
def front : List Char := ['\x1b', '[', '4', '0', ';', '9', '7', 'm']

/-- The ANSI sequence `back = "\033[0m\n"` of the TerminalMode closure. -/
def back : List Char := ['\x1b', '[', '0', 'm', '\n']

/-- `strings.ReplaceAll(s, "\n", r)`: the pattern is the single character
`'\n'`, so every occurrence is one character and is replaced by `r`. -/
def replaceNL (s r : List Char) : List Char :=
  s.flatMap fun c => if c = '\n' then r else [c]

/-- The TerminalMode closure (qr.go lines 304–313): render with the dark
palette, then re-insert the colour escape after every newline and trim the
final redundant `front`. -/
def terminal (g? : Option Grid) (headers : List (List Char)) :
    Option (Except String (List Char)) :=
  match text (some darkMode) g? headers with
  | none => none
  | some (.error e) => some (.error e)
  | some (.ok s) =>
    some (.ok (front ++ trimSuffix (replaceNL s (back ++ front)) front))

/-- The `css` constant of qr.go (lines 194–218); `\x7b`/`\x7d` are the
literal brace characters of the Go raw string. -/
def cssL : List Char :=
  ("<style>\n.qrstr-white \x7b\n\tbackground-color: white;\n\tcolor: white;\n\tborder-color: white;\n\tpadding: 0.5em;\n\x7d\n.qrstr-black \x7b\n\tbackground-color: black;\n\tcolor: black;\n\tborder-color: black;\n\tpadding: 0.5em;\n\x7d\n.qrstr-code , .qrstr-code * \x7b\n\tborder: 0;\n\tfont-family: monospace;\n\tpadding: 0;\n\tmargin: 0;\n\tfont-size: 10%;\n\tletter-spacing: 0;\n\tborder-spacing: 0;\n\tborder-collapse: collapse;\n\x7d\n</style>\n").toList

/-- The opening `<div ...>` line of the HTML renderer (qr.go line 221). -/
def divLine : List Char :=
  ("<div style=\"width: min-content;background: white; color: black;  padding: 1lh;\">\n").toList

/-- One black cell of the HTML table (qr.go line 239). -/
def cellBlack : List Char := ("<td class=\"qrstr-black\"></td>\n").toList

/-- One white cell of the HTML table (qr.go line 241). -/
def cellWhite : List Char := ("<td class=\"qrstr-white\"></td>\n").toList

/-- One `<tr>` row of the HTML table (qr.go lines 236–244). -/
def htmlRow (g : Grid) (y : Nat) : List Char :=
  ("<tr>\n").toList
    ++ ((List.range g.dx).map fun x =>
          if g.px x y then cellBlack else cellWhite).flatten
    ++ ("</tr>\n").toList

/-- The `<table ...>` opener exactly as emitted by qr.go line 234 — note
the missing `=` after `class`. -/
def tableOpen : List Char :=
  ("<table class\"qrstr-code\" style=\"border-collapse: collapse;\">\n").toList

/-- The closing markup of the HTML renderer (qr.go line 246). -/
def tableClose : List Char := ("</table></div>\n").toList

/-- `html` (qr.go lines 220–248).  The `rc` parameter is unused in the Go
code; the `nil` check on `code` returns the configuration error. -/
def html (_rc? : Option (List Char)) (g? : Option Grid)
    (headers : List (List Char)) : Except String (List Char) :=
  match g? with
  | none => .error "encoder misconfigured, use NewEncoder when creating it"
  | some g =>
    .ok (divLine ++ cssL
      ++ (if headers = [] then []
          else (headers.map fun v =>
                 ("<p>").toList ++ v ++ ("</p>\n").toList).flatten
            ++ ("<hr>\n").toList)
      ++ tableOpen
      ++ ((List.range g.dy).map (htmlRow g)).flatten
      ++ tableClose)

/-- The three render functions an `Encoder` can hold, as a tag; the Go
code stores them as function pointers in `Encoder.strFunc`. -/
inductive StrFuncKind
  | textF
  | htmlF
  | termF

/-- The `Encoder` struct (qr.go lines 116–120).  `EncoderType` and
`ErrorCorrectionLevel` are Go named integer types, modelled as `Int`. -/
structure EncoderM where
  strFunc : Option StrFuncKind
  rc : Option (List Char)
  errCorr : Int

/-- `NewEncoder` (qr.go lines 288–323): the switch on the encoder type
(default: invalid-type error), then the range check on the error
correction level. -/
def NewEncoder (encoderType errorCorrectionLevel : Int) :
    Except String EncoderM :=
  match (if encoderType = 0 then some (some StrFuncKind.textF, some darkMode)
         else if encoderType = 1 then some (some StrFuncKind.textF, some lightMode)
         else if encoderType = 2 then some (some StrFuncKind.htmlF, (none : Option (List Char)))
         else if encoderType = 3 then some (some StrFuncKind.termF, some darkMode)
         else none) with
  | none => .error ("invalid encoder type: " ++ toString encoderType)
  | some (f, rc) =>
    if errorCorrectionLevel < 0 ∨ 3 < errorCorrectionLevel then
      .error ("invalid error correction level: " ++ toString errorCorrectionLevel)
    else .ok ⟨f, rc, errorCorrectionLevel⟩

/-- `Encoder.Encode` (qr.go lines 124–136).  The external matrix generator
`qr.Encode` is an external collaborator and is passed in as `gen`; its
error propagates verbatim.  The `strFunc == nil` check precedes the
generator call. -/
def Encode (gen : String → Int → Except String Grid) (q : EncoderM)
    (data : String) (headers : List (List Char)) :
    Option (Except String (List Char)) :=
  match q.strFunc with
  | none => some (.error "encoder misconfigured, use NewEncoder when creating it")
  | some k =>
    match gen data q.errCorr with
    | .error e => some (.error e)
    | .ok g =>
      match k with
      | .textF => text q.rc (some g) headers
      | .htmlF => some (html q.rc (some g) headers)
      | .termF => terminal (some g) headers

/-- Strip ANSI escapes: after an ESC character, drop everything up to and
including the terminating `'m'`; all escapes emitted by the terminal
renderer are of this CSI-`m` form. -/
def stripAnsiAux : Bool → List Char → List Char
  | _, [] => []
  | false, c :: rest =>
    if c = '\x1b' then stripAnsiAux true rest else c :: stripAnsiAux false rest
  | true, c :: rest =>
    if c = 'm' then stripAnsiAux false rest else stripAnsiAux true rest

/-- Strip ANSI escapes from a rendered string. -/
def stripAnsi (s : List Char) : List Char := stripAnsiAux false s

/-- Count the positions of `s` at which `pat` occurs as a substring. -/
def countSubstr : List Char → List Char → Nat
  | [], _ => 0
  | c :: rest, pat =>
    (if pat.isPrefixOf (c :: rest) then 1 else 0) + countSubstr rest pat

/-- The number of black pixels of a grid. -/
def blackCount (g : Grid) : Nat :=
  ((List.range g.dy).map fun y => (List.range g.dx).countP fun x => g.px x y).sum

/-- The colour inversion on the four half-block glyphs: swap space with
full block and upper half with lower half. -/
def invGlyph (c : Char) : Char :=
  if c = ' ' then '█'
  else if c = '█' then ' '
  else if c = '▀' then '▄'
  else if c = '▄' then '▀'
  else c

/-- Invariant of the accumulator `line` of `wrap`: it is empty or ends in
the separating space and, including that space, is at most `w + 1` long. -/
def LineInv (w : Nat) (line : List Char) : Prop :=
  line = [] ∨ (line.getLast? = some ' ' ∧ line.length ≤ w + 1)

/-- Every line `wrap` emits is short (length at most the effective width
`w`) or is a hard-split chunk: exactly `w + 1` long, ending in `'-'`. -/
def GoodOut (w : Nat) (l : List Char) : Prop :=
  l.length ≤ w ∨ (l.length = w + 1 ∧ l.getLast? = some '-')



/-! ## Results on the text wrapper: claims C1–C4 -/

/-- Claim C1 (evaluation at the failing input): at width 5 the accumulator
holds `"ab "` and the next word is `"cd"`; the flush branch of `wrap`
discards `"cd"` instead of seeding the new accumulator with it, so the
output is `["ab"]` and the word `"cd"` is dropped. -/
theorem wrap_drops_overflow_word :
    wrap 5 ["ab cd".toList] = some ["ab".toList] := by decide

/-- Claim C2 (evaluation at the failing input): at width 4 the hard-split
remainder `"gh "` of the first input line is not flushed at the end of
that line (first conjunct) and is carried into the wrapping of the second
input line, where it is flushed mid-line and causes `"iii"` to be dropped
(second conjunct). -/
theorem wrap_carries_accumulator_across_lines :
    wrap 4 ["abcdefgh".toList] = some ["abc-".toList, "def-".toList] ∧
    wrap 4 ["abcdefgh".toList, "iii".toList] =
      some ["abc-".toList, "def-".toList, "gh".toList] := by decide

/-- Claim C3 (counterexample): at width 4 the hard-split chunks `"abc-"`
have length 4 = width including the hyphen, not width+1 = 5; and the
chunk `"abc-"` is an emitted line other than the last whose length is not
strictly less than the width. -/
theorem wrap_chunk_width_cex :
    wrap 4 ["abcdefgh iii".toList] =
      some ["abc-".toList, "def-".toList, "gh".toList] ∧
    "abc-".toList.length = 4 ∧ ¬ "abc-".toList.length = 5 := by decide

/-- Claim C4 (counterexample): `len "short" = 5 < 6 = width`, yet
`wrap 6 ["short"]` does not return `["short"]` — the code compares against
the decremented width, sends `"short"` through the word loop, and emits a
single empty line. -/
theorem wrap_short_not_unchanged_cex :
    "short".toList.length < 6 ∧
    wrap 6 ["short".toList] = some [[]] ∧
    ¬ wrap 6 ["short".toList] = some ["short".toList] := by decide

/-- Claim C4 (amended): `wrap width [] = []`, and an input line is emitted
unchanged when its length is less than `width - 1` (the code decrements
the width before comparing). -/
theorem wrap_nil_and_short_unchanged :
    (∀ width : Nat, wrap width [] = some []) ∧
    (∀ (width : Nat) (l : List Char), l.length + 1 < width →
      wrap width [l] = some [l]) := by
  constructor
  · intro width; rfl
  · intro width l h
    have hw : l.length < width - 1 := by omega
    simp [wrap, wrapLines, hw]

/-- Witness for the amended claim C4 at width 7 and line `"short"`. -/
theorem wrap_nil_and_short_unchanged_witness :
    wrap 7 ["short".toList] = some ["short".toList] :=
  wrap_nil_and_short_unchanged.2 7 "short".toList (by decide)

/-! ## The glyph palettes: claim C9 -/

/-- Claim C9: the palette index of every 2-bit code is in bounds for both
palettes (the lookup is total), the four glyphs of each palette are
pairwise distinct, and at every code the dark glyph is the colour inverse
of the light glyph. -/
theorem palette_total_distinct_inverse :
    (∀ t b : Bool,
      ((if t then 1 else 0) + (if b then 2 else 0) < lightMode.length) ∧
      ((if t then 1 else 0) + (if b then 2 else 0) < darkMode.length)) ∧
    lightMode.Nodup ∧ darkMode.Nodup ∧
    (∀ t b : Bool, getRune darkMode t b = invGlyph (getRune lightMode t b)) := by
  decide

/-! ## The encoder facade: claim C8 -/

/-- Claim C8: `NewEncoder` succeeds exactly on the four encoder types
`{TextDarkMode, TextLightMode, HTMLMode, TerminalMode} = {0,1,2,3}`
combined with an error-correction level in `{0,1,2,3}`; and `Encode` on an
encoder whose render function is unset returns the configuration error
without consulting the matrix generator (the result is the same for every
generator `gen`). -/
theorem newEncoder_valid_iff_encode_misconfigured :
    (∀ t l : Int, (NewEncoder t l).isOk = true ↔
      ((t = 0 ∨ t = 1 ∨ t = 2 ∨ t = 3) ∧ 0 ≤ l ∧ l ≤ 3)) ∧
    (∀ (gen : String → Int → Except String Grid) (q : EncoderM)
      (data : String) (headers : List (List Char)), q.strFunc = none →
      Encode gen q data headers =
        some (.error "encoder misconfigured, use NewEncoder when creating it")) := by
  constructor
  · intro t l
    by_cases h0 : t = 0 <;> by_cases h1 : t = 1 <;> by_cases h2 : t = 2 <;>
      by_cases h3 : t = 3 <;> by_cases hl : l < 0 ∨ 3 < l <;>
      simp [NewEncoder, h0, h1, h2, h3, hl, Except.isOk, Except.toBool] <;> omega
  · intro gen q data headers h
    simp [Encode, h]

/-- Witness for claim C8: type 0 with level 1 is accepted, and a
misconfigured encoder yields the configuration error for a generator that
would otherwise succeed. -/
theorem newEncoder_valid_iff_encode_misconfigured_witness :
    (NewEncoder 0 1).isOk = true ∧
    Encode (fun _ _ => Except.ok ⟨1, 1, fun _ _ => true⟩) ⟨none, none, 0⟩ "hi" [] =
      some (.error "encoder misconfigured, use NewEncoder when creating it") :=
  ⟨(newEncoder_valid_iff_encode_misconfigured.1 0 1).2 (by norm_num),
   newEncoder_valid_iff_encode_misconfigured.2 _ _ _ _ rfl⟩


/-! ## Length invariants of the wrapper, for the amended claim C3 -/

lemma trimSuffixSpace_good (w : Nat) (line : List Char) (h : LineInv w line) :
    (trimSuffixSpace line).length ≤ w := by
  rcases h with rfl | ⟨h1, h2⟩
  · simp [trimSuffixSpace]
  · unfold trimSuffixSpace
    rw [if_pos (by rw [h1])]
    have := List.length_dropLast line
    omega

lemma hardSplitF_good (w : Nat) : ∀ (fuel : Nat) (r line : List Char)
    (cs : List (List Char)) (line2 : List Char), LineInv w line →
    hardSplitF fuel w r line = some (cs, line2) →
    (∀ l ∈ cs, GoodOut w l) ∧ LineInv w line2 := by
  intro fuel
  induction fuel with
  | zero =>
    intro r line cs line2 hin h
    cases r with
    | nil =>
      simp [hardSplitF] at h
      obtain ⟨rfl, rfl⟩ := h
      exact ⟨by simp, hin⟩
    | cons c cr => simp [hardSplitF] at h
  | succ fuel ih =>
    intro r line cs line2 hin h
    cases r with
    | nil =>
      simp [hardSplitF] at h
      obtain ⟨rfl, rfl⟩ := h
      exact ⟨by simp, hin⟩
    | cons c cr =>
      by_cases hw : w = 0
      · simp [hardSplitF, hw] at h
      · simp only [hardSplitF] at h
        rw [if_neg hw] at h
        by_cases hlt : w < (c :: cr).length
        · rw [if_pos hlt] at h
          cases hrec : hardSplitF fuel w ((c :: cr).drop w) line with
          | none => rw [hrec] at h; exact absurd h (by simp)
          | some p =>
            obtain ⟨cs', l2⟩ := p
            rw [hrec] at h
            simp only [Option.some.injEq, Prod.mk.injEq] at h
            obtain ⟨rfl, rfl⟩ := h
            have hg := ih ((c :: cr).drop w) line cs' l2 hin hrec
            refine ⟨?_, hg.2⟩
            intro l hl
            rcases List.mem_cons.1 hl with rfl | hl
            · right
              refine ⟨?_, List.getLast?_concat _⟩
              have hle : w ≤ cr.length + 1 := by
                have := hlt
                simp at this
                omega
              simp [List.length_take, min_eq_left hle]
            · exact hg.1 l hl
        · rw [if_neg hlt] at h
          simp only [Option.some.injEq, Prod.mk.injEq] at h
          obtain ⟨rfl, rfl⟩ := h
          refine ⟨by simp, Or.inr ⟨List.getLast?_concat _, ?_⟩⟩
          simp at hlt ⊢
          omega

lemma wrapWords_good (w : Nat) : ∀ (b lines : List (List Char)) (line : List Char)
    (lines2 : List (List Char)) (line2 : List Char),
    (∀ l ∈ lines, GoodOut w l) → LineInv w line →
    wrapWords w lines line b = some (lines2, line2) →
    (∀ l ∈ lines2, GoodOut w l) ∧ LineInv w line2 := by
  intro b
  induction b with
  | nil =>
    intro lines line lines2 line2 hl hin h
    simp [wrapWords] at h
    obtain ⟨rfl, rfl⟩ := h
    exact ⟨hl, hin⟩
  | cons v rest ih =>
    intro lines line lines2 line2 hl hin h
    by_cases h1 : w < v.length
    · cases hhs : hardSplit w v line with
      | none => simp [wrapWords, h1, hhs] at h
      | some p =>
        obtain ⟨cs, lineh⟩ := p
        have hg := hardSplitF_good w v.length v line cs lineh hin hhs
        simp [wrapWords, h1, hhs] at h
        refine ih _ _ _ _ (fun l hm => ?_) hg.2 h
        rcases List.mem_append.1 hm with hm | hm
        · exact hl l hm
        · exact hg.1 l hm
    · by_cases h2 : line.length + v.length < w
      · by_cases h3 : rest = []
        · subst h3
          simp [wrapWords, h1, h2] at h
          obtain ⟨rfl, rfl⟩ := h
          refine ⟨fun l hm => ?_, Or.inl rfl⟩
          rcases List.mem_append.1 hm with hm | hm
          · exact hl l hm
          · simp at hm
            subst hm
            left
            apply trimSuffixSpace_good w
            refine Or.inr ⟨?_, ?_⟩
            · rw [← List.append_assoc]
              exact List.getLast?_concat _
            · simp
              omega
        · simp [wrapWords, h1, h2, h3] at h
          refine ih _ _ _ _ hl (Or.inr ⟨?_, ?_⟩) h
          · rw [← List.append_assoc]
            exact List.getLast?_concat _
          · simp
            omega
      · simp [wrapWords, h1, h2] at h
        refine ih _ _ _ _ (fun l hm => ?_) (Or.inl rfl) h
        rcases List.mem_append.1 hm with hm | hm
        · exact hl l hm
        · simp at hm
          subst hm
          left
          exact trimSuffixSpace_good w line hin

lemma wrapLines_good (w : Nat) : ∀ (s lines : List (List Char)) (line : List Char)
    (lines2 : List (List Char)) (line2 : List Char),
    (∀ l ∈ lines, GoodOut w l) → LineInv w line →
    wrapLines w (lines, line) s = some (lines2, line2) →
    (∀ l ∈ lines2, GoodOut w l) ∧ LineInv w line2 := by
  intro s
  induction s with
  | nil =>
    intro lines line lines2 line2 hl hin h
    simp [wrapLines] at h
    obtain ⟨rfl, rfl⟩ := h
    exact ⟨hl, hin⟩
  | cons l0 rest ih =>
    intro lines line lines2 line2 hl hin h
    by_cases h1 : l0.length < w
    · simp [wrapLines, h1] at h
      refine ih _ _ _ _ (fun l hm => ?_) hin h
      rcases List.mem_append.1 hm with hm | hm
      · exact hl l hm
      · simp at hm
        subst hm
        left
        omega
    · cases hww : wrapWords w lines line (splitOnSpace l0) with
      | none => simp [wrapLines, h1, hww] at h
      | some st2 =>
        obtain ⟨lines', line'⟩ := st2
        have hg := wrapWords_good w (splitOnSpace l0) lines line lines' line' hl hin hww
        simp [wrapLines, h1, hww] at h
        exact ih _ _ _ _ hg.1 hg.2 h

/-- Claim C3 (amended): for every width ≥ 1 and every terminating run of
`wrap`, every emitted line either has length strictly less than the width,
or is a hard-split chunk of length exactly the width — `width - 1`
characters plus the trailing hyphen. -/
theorem wrap_line_length_bound : ∀ (width : Nat) (s out : List (List Char)),
    1 ≤ width → wrap width s = some out →
    ∀ l ∈ out, l.length < width ∨ (l.length = width ∧ l.getLast? = some '-') := by
  intro width s out hw h l hm
  unfold wrap at h
  cases hwl : wrapLines (width - 1) ([], []) s with
  | none => rw [hwl] at h; simp at h
  | some st =>
    obtain ⟨lines2, line2⟩ := st
    rw [hwl] at h
    simp at h
    subst h
    have hg := wrapLines_good (width - 1) s [] [] lines2 line2 (by simp)
      (Or.inl rfl) hwl
    rcases hg.1 l hm with hlen | ⟨hlen, hlast⟩
    · left; omega
    · right; exact ⟨by omega, hlast⟩

/-- Witness for the amended claim C3: at width 4, on input
`"abcdefgh iii"`, the emitted chunk `"abc-"` has length exactly the width
and ends in a hyphen. -/
theorem wrap_line_length_bound_witness :
    "abc-".toList.length < 4 ∨
      ("abc-".toList.length = 4 ∧ "abc-".toList.getLast? = some '-') :=
  wrap_line_length_bound 4 ["abcdefgh iii".toList]
    ["abc-".toList, "def-".toList, "gh".toList] (by decide) (by decide)
    "abc-".toList (by decide)


/-! ## Character preservation through the wrapper, used for line and
escape counting in the renderers -/

lemma mem_trimSuffixSpace {c : Char} {l : List Char}
    (h : c ∈ trimSuffixSpace l) : c ∈ l := by
  unfold trimSuffixSpace at h
  split at h
  · exact (List.dropLast_prefix l).subset h
  · exact h

lemma splitOnSpace_chars : ∀ (l v : List Char), v ∈ splitOnSpace l →
    ∀ c ∈ v, c ∈ l := by
  intro l
  induction l with
  | nil =>
    intro v hv c hc
    simp [splitOnSpace] at hv
    subst hv
    simp at hc
  | cons a cs ih =>
    intro v hv c hc
    by_cases ha : a = ' '
    · simp [splitOnSpace, ha] at hv
      rcases hv with rfl | hv
      · simp at hc
      · exact List.mem_cons_of_mem _ (ih v hv c hc)
    · cases hsp : splitOnSpace cs with
      | nil =>
        simp [splitOnSpace, ha, hsp] at hv
        subst hv
        simp at hc
        subst hc
        exact List.mem_cons_self _ _
      | cons w ws =>
        simp [splitOnSpace, ha, hsp] at hv
        rcases hv with rfl | hv
        · rcases List.mem_cons.1 hc with rfl | hc
          · exact List.mem_cons_self _ _
          · have hw : w ∈ splitOnSpace cs := by
              rw [hsp]; exact List.mem_cons_self _ _
            exact List.mem_cons_of_mem _ (ih w hw c hc)
        · have hv' : v ∈ splitOnSpace cs := by
            rw [hsp]; exact List.mem_cons_of_mem _ hv
          exact List.mem_cons_of_mem _ (ih v hv' c hc)

lemma hardSplitF_chars (ch : Char) (hd : ch ≠ '-') (hsp : ch ≠ ' ') :
    ∀ (fuel w : Nat) (r line : List Char) (cs : List (List Char))
    (line2 : List Char), ch ∉ r → ch ∉ line →
    hardSplitF fuel w r line = some (cs, line2) →
    (∀ l ∈ cs, ch ∉ l) ∧ ch ∉ line2 := by
  intro fuel
  induction fuel with
  | zero =>
    intro w r line cs line2 hr hl h
    cases r with
    | nil =>
      simp [hardSplitF] at h
      obtain ⟨rfl, rfl⟩ := h
      exact ⟨by simp, hl⟩
    | cons c cr => simp [hardSplitF] at h
  | succ fuel ih =>
    intro w r line cs line2 hr hl h
    cases r with
    | nil =>
      simp [hardSplitF] at h
      obtain ⟨rfl, rfl⟩ := h
      exact ⟨by simp, hl⟩
    | cons c cr =>
      by_cases hw : w = 0
      · simp [hardSplitF, hw] at h
      · simp only [hardSplitF] at h
        rw [if_neg hw] at h
        by_cases hlt : w < (c :: cr).length
        · rw [if_pos hlt] at h
          cases hrec : hardSplitF fuel w ((c :: cr).drop w) line with
          | none => rw [hrec] at h; exact absurd h (by simp)
          | some p =>
            obtain ⟨cs', l2⟩ := p
            rw [hrec] at h
            simp only [Option.some.injEq, Prod.mk.injEq] at h
            obtain ⟨rfl, rfl⟩ := h
            have hdrop : ch ∉ (c :: cr).drop w := fun hm => hr (List.drop_subset _ _ hm)
            have hg := ih w _ line cs' l2 hdrop hl hrec
            refine ⟨?_, hg.2⟩
            intro l hm
            rcases List.mem_cons.1 hm with rfl | hm
            · intro hmem
              rcases List.mem_append.1 hmem with hm2 | hm2
              · exact hr (List.take_subset _ _ hm2)
              · simp at hm2
                exact hd hm2
            · exact hg.1 l hm
        · rw [if_neg hlt] at h
          simp only [Option.some.injEq, Prod.mk.injEq] at h
          obtain ⟨rfl, rfl⟩ := h
          refine ⟨by simp, fun hmem => ?_⟩
          rcases List.mem_append.1 hmem with hm | hm
          · exact hr hm
          · simp at hm
            exact hsp hm

lemma wrapWords_chars (ch : Char) (hd : ch ≠ '-') (hsp : ch ≠ ' ') (w : Nat) :
    ∀ (b lines : List (List Char)) (line : List Char)
    (lines2 : List (List Char)) (line2 : List Char),
    (∀ v ∈ b, ch ∉ v) → (∀ l ∈ lines, ch ∉ l) → ch ∉ line →
    wrapWords w lines line b = some (lines2, line2) →
    (∀ l ∈ lines2, ch ∉ l) ∧ ch ∉ line2 := by
  intro b
  induction b with
  | nil =>
    intro lines line lines2 line2 hb hl hin h
    simp [wrapWords] at h
    obtain ⟨rfl, rfl⟩ := h
    exact ⟨hl, hin⟩
  | cons v rest ih =>
    intro lines line lines2 line2 hb hl hin h
    have hv : ch ∉ v := hb v (List.mem_cons_self _ _)
    have hrest : ∀ u ∈ rest, ch ∉ u := fun u hu => hb u (List.mem_cons_of_mem _ hu)
    by_cases h1 : w < v.length
    · cases hhs : hardSplit w v line with
      | none => simp [wrapWords, h1, hhs] at h
      | some p =>
        obtain ⟨cs, lineh⟩ := p
        have hg := hardSplitF_chars ch hd hsp v.length w v line cs lineh hv hin hhs
        simp [wrapWords, h1, hhs] at h
        refine ih _ _ _ _ hrest (fun l hm => ?_) hg.2 h
        rcases List.mem_append.1 hm with hm | hm
        · exact hl l hm
        · exact hg.1 l hm
    · have hline' : ch ∉ line ++ (v ++ [' ']) := by
        intro hmem
        rcases List.mem_append.1 hmem with hm | hm
        · exact hin hm
        · rcases List.mem_append.1 hm with hm2 | hm2
          · exact hv hm2
          · simp at hm2
            exact hsp hm2
      by_cases h2 : line.length + v.length < w
      · by_cases h3 : rest = []
        · subst h3
          simp [wrapWords, h1, h2] at h
          obtain ⟨rfl, rfl⟩ := h
          refine ⟨fun l hm => ?_, by simp⟩
          rcases List.mem_append.1 hm with hm | hm
          · exact hl l hm
          · simp at hm
            subst hm
            exact fun hmem => hline' (mem_trimSuffixSpace hmem)
        · simp [wrapWords, h1, h2, h3] at h
          exact ih _ _ _ _ hrest hl hline' h
      · simp [wrapWords, h1, h2] at h
        refine ih _ _ _ _ hrest (fun l hm => ?_) (by simp) h
        rcases List.mem_append.1 hm with hm | hm
        · exact hl l hm
        · simp at hm
          subst hm
          exact fun hmem => hin (mem_trimSuffixSpace hmem)

lemma wrapLines_chars (ch : Char) (hd : ch ≠ '-') (hsp : ch ≠ ' ') (w : Nat) :
    ∀ (s lines : List (List Char)) (line : List Char)
    (lines2 : List (List Char)) (line2 : List Char),
    (∀ l ∈ s, ch ∉ l) → (∀ l ∈ lines, ch ∉ l) → ch ∉ line →
    wrapLines w (lines, line) s = some (lines2, line2) →
    (∀ l ∈ lines2, ch ∉ l) ∧ ch ∉ line2 := by
  intro s
  induction s with
  | nil =>
    intro lines line lines2 line2 hb hl hin h
    simp [wrapLines] at h
    obtain ⟨rfl, rfl⟩ := h
    exact ⟨hl, hin⟩
  | cons l0 rest ih =>
    intro lines line lines2 line2 hb hl hin h
    have hl0 : ch ∉ l0 := hb l0 (List.mem_cons_self _ _)
    have hrest : ∀ u ∈ rest, ch ∉ u := fun u hu => hb u (List.mem_cons_of_mem _ hu)
    by_cases h1 : l0.length < w
    · simp [wrapLines, h1] at h
      refine ih _ _ _ _ hrest (fun l hm => ?_) hin h
      rcases List.mem_append.1 hm with hm | hm
      · exact hl l hm
      · simp at hm
        subst hm
        exact hl0
    · cases hww : wrapWords w lines line (splitOnSpace l0) with
      | none => simp [wrapLines, h1, hww] at h
      | some st2 =>
        obtain ⟨lines', line'⟩ := st2
        have hwords : ∀ v ∈ splitOnSpace l0, ch ∉ v :=
          fun v hv hmem => hl0 (splitOnSpace_chars l0 v hv ch hmem)
        have hg := wrapWords_chars ch hd hsp w (splitOnSpace l0) lines line
          lines' line' hwords hl hin hww
        simp [wrapLines, h1, hww] at h
        exact ih _ _ _ _ hrest hg.1 hg.2 h

lemma wrap_chars (ch : Char) (hd : ch ≠ '-') (hsp : ch ≠ ' ')
    (width : Nat) (s out : List (List Char)) (hin : ∀ l ∈ s, ch ∉ l)
    (h : wrap width s = some out) : ∀ l ∈ out, ch ∉ l := by
  unfold wrap at h
  cases hwl : wrapLines (width - 1) ([], []) s with
  | none => rw [hwl] at h; simp at h
  | some st =>
    obtain ⟨lines2, line2⟩ := st
    rw [hwl] at h
    simp at h
    subst h
    exact (wrapLines_chars ch hd hsp (width - 1) s [] [] lines2 line2 hin
      (by simp) (by simp) hwl).1


/-! ## Line counting in the monospace renderer: claim C5 -/

lemma pad_count (n : Int) (r ch : Char) (h : ch ≠ r) : (pad n r).count ch = 0 := by
  refine List.count_eq_zero.2 fun hmem => ?_
  unfold pad at hmem
  split at hmem
  · simp at hmem
  · rw [List.mem_replicate] at hmem
    exact h hmem.2

lemma rowPair_count (rc : List Char) (g : Grid) (y : Nat)
    (hg : ∀ t b, getRune rc t b ≠ '\n') : (rowPair rc g y).count '\n' = 0 := by
  refine List.count_eq_zero.2 fun hmem => ?_
  unfold rowPair at hmem
  rw [List.mem_map] at hmem
  obtain ⟨x, _, hx⟩ := hmem
  exact hg _ _ hx

lemma rowLast_count (rc : List Char) (g : Grid) (y : Nat)
    (hg : ∀ t b, getRune rc t b ≠ '\n') : (rowLast rc g y).count '\n' = 0 := by
  refine List.count_eq_zero.2 fun hmem => ?_
  unfold rowLast at hmem
  rw [List.mem_map] at hmem
  obtain ⟨x, _, hx⟩ := hmem
  exact hg _ _ hx

lemma textPfx_count (hh : Bool) (wr : Char) (hwr : wr ≠ '\n') :
    (textPfx hh wr).count '\n' = 0 := by
  refine List.count_eq_zero.2 fun hmem => ?_
  cases hh <;> simp [textPfx] at hmem
  · exact hwr hmem.symm
  · rcases hmem with hmem | hmem
    · exact absurd hmem (by decide)
    · exact hwr hmem.symm

lemma textSfx_count (hh : Bool) (wr : Char) (hwr : wr ≠ '\n') :
    (textSfx hh wr).count '\n' = 1 := by
  have hwhole : ¬ (whole = '\n') := by decide
  cases hh <;> simp [textSfx, List.count_cons, hwr, hwhole]

lemma count_body_rows (rc : List Char) (g : Grid) (p2 : List Char)
    (hg : ∀ t b, getRune rc t b ≠ '\n') : ∀ n : Nat,
    (((List.range n).map fun k => rowPair rc g (2 * k) ++ p2).flatten).count '\n'
      = n * p2.count '\n' := by
  intro n
  induction n with
  | zero => simp
  | succ n ih =>
    rw [List.range_succ, List.map_append, List.flatten_append, List.count_append, ih]
    simp [List.count_append, rowPair_count rc g _ hg]
    ring

lemma trimSuffix_append (a b : List Char) : trimSuffix (a ++ b) b = a := by
  unfold trimSuffix
  rw [if_pos (by rw [List.isSuffixOf_iff_suffix]; exact List.suffix_append a b)]
  rw [List.length_append, Nat.add_sub_cancel]
  exact List.take_left a b

lemma textAssemble_count (rc : List Char) (g : Grid) (hh : Bool) (wr : Char)
    (head : List Char) (hdy : 1 ≤ g.dy)
    (hg : ∀ t b, getRune rc t b ≠ '\n') (hwr : wr ≠ '\n') :
    (textAssemble rc g hh wr head).count '\n'
      = head.count '\n' + (g.dy + 1) / 2 + 1 := by
  have hp2 : (textSfx hh wr ++ textPfx hh wr).count '\n' = 1 := by
    rw [List.count_append, textSfx_count hh wr hwr, textPfx_count hh wr hwr]
  unfold textAssemble textOut2 textOut1 textBody
  by_cases hodd : g.dy % 2 = 1
  · rw [if_pos hodd]
    simp only [List.count_append]
    rw [count_body_rows rc g _ hg, rowLast_count rc g _ hg,
      textSfx_count hh wr hwr, textPfx_count hh wr hwr,
      pad_count _ _ _ (Ne.symm hwr), hp2]
    have : (['\n'] : List Char).count '\n' = 1 := by decide
    rw [this]
    omega
  · rw [if_neg hodd]
    obtain ⟨m, hm2⟩ : ∃ m, g.dy / 2 = m + 1 := ⟨g.dy / 2 - 1, by omega⟩
    rw [hm2, List.range_succ]
    simp only [List.map_append, List.map_cons, List.map_nil, List.flatten_append,
      List.flatten_cons, List.flatten_nil, List.append_nil]
    have hshape : head ++ textPfx hh wr
        ++ (((List.range m).map fun k =>
              rowPair rc g (2 * k) ++ (textSfx hh wr ++ textPfx hh wr)).flatten
            ++ (rowPair rc g (2 * m) ++ (textSfx hh wr ++ textPfx hh wr)))
        = (head ++ textPfx hh wr
            ++ ((List.range m).map fun k =>
                rowPair rc g (2 * k) ++ (textSfx hh wr ++ textPfx hh wr)).flatten
            ++ rowPair rc g (2 * m)) ++ (textSfx hh wr ++ textPfx hh wr) := by
      simp [List.append_assoc]
    rw [hshape, trimSuffix_append]
    simp only [List.count_append]
    rw [count_body_rows rc g _ hg, rowPair_count rc g _ hg,
      textSfx_count hh wr hwr, textPfx_count hh wr hwr,
      pad_count _ _ _ (Ne.symm hwr), hp2]
    have : (['\n'] : List Char).count '\n' = 1 := by decide
    rw [this]
    omega

lemma headNone_count (dx : Nat) (wr : Char) (hwr : wr ≠ '\n') :
    (headNone dx wr).count '\n' = 1 := by
  unfold headNone
  rw [List.count_append, pad_count _ _ _ (Ne.symm hwr)]
  decide

lemma headerLine_count (dx : Nat) (v : List Char) (hv : '\n' ∉ v) :
    (headerLine dx v).count '\n' = 1 := by
  unfold headerLine
  simp only [List.count_append]
  rw [pad_count _ _ _ (by decide), List.count_eq_zero.2 hv]
  have h1 : ([whole, blank] : List Char).count '\n' = 0 := by decide
  have h2 : ([whole] : List Char).count '\n' = 0 := by decide
  have h3 : (['\n'] : List Char).count '\n' = 1 := by decide
  rw [h1, h2, h3]

lemma headSome_count (dx : Nat) (wr : Char) (ws : List (List Char))
    (hwr : wr ≠ '\n') (hws : ∀ v ∈ ws, '\n' ∉ v) :
    (headSome dx wr ws).count '\n' = 3 + ws.length := by
  have hflat : ∀ l : List (List Char), (∀ v ∈ l, '\n' ∉ v) →
      ((l.map (headerLine dx)).flatten).count '\n' = l.length := by
    intro l
    induction l with
    | nil => simp
    | cons v vs ih =>
      intro hv
      simp only [List.map_cons, List.flatten_cons, List.count_append]
      rw [headerLine_count dx v (hv v (List.mem_cons_self _ _)),
        ih fun u hu => hv u (List.mem_cons_of_mem _ hu)]
      simp
      omega
  unfold headSome headTop headDiv
  simp only [List.count_append]
  rw [hflat ws hws, pad_count _ _ _ (by decide), pad_count _ _ _ (by decide),
    pad_count _ _ _ (Ne.symm hwr)]
  have h2 : ([whole] : List Char).count '\n' = 0 := by decide
  have h3 : (['\n'] : List Char).count '\n' = 1 := by decide
  rw [h2, h3]
  omega

/-- Claim C5: for any grid with `dy ≥ 1`, a built-in palette, and headers
free of literal newlines, the monospace renderer emits `⌈dy/2⌉` body lines
(the odd final row paired with an implicit white row) plus 2 border lines
without headers, and plus `4 + (number of wrapped header lines)` with
headers. -/
theorem text_line_count (rc : List Char) (g : Grid)
    (headers : List (List Char)) (out : List Char)
    (hrc : rc = lightMode ∨ rc = darkMode) (hdy : 1 ≤ g.dy)
    (hhead : ∀ h ∈ headers, '\n' ∉ h)
    (h : text (some rc) (some g) headers = some (Except.ok out)) :
    (headers = [] ∧ out.count '\n' = (g.dy + 1) / 2 + 2) ∨
    (∃ ws, wrap g.dx headers = some ws ∧
      out.count '\n' = (g.dy + 1) / 2 + 4 + ws.length) := by
  have hg : ∀ t b, getRune rc t b ≠ '\n' := by
    rcases hrc with rfl | rfl <;> intro t b <;> cases t <;> cases b <;> decide
  have hwr : getRune rc false false ≠ '\n' := hg false false
  by_cases hh : headers = []
  · left
    refine ⟨hh, ?_⟩
    rw [hh] at h
    simp [text] at h
    rw [← h, textAssemble_count rc g false _ _ hdy hg hwr,
      headNone_count _ _ hwr]
    omega
  · right
    cases hws : wrap g.dx headers with
    | none => simp [text, hh, hws] at h
    | some ws =>
      refine ⟨ws, rfl, ?_⟩
      simp [text, hh, hws] at h
      have hwsnl : ∀ v ∈ ws, '\n' ∉ v :=
        wrap_chars '\n' (by decide) (by decide) g.dx headers ws hhead hws
      rw [← h, textAssemble_count rc g true _ _ hdy hg hwr,
        headSome_count _ _ _ hwr hwsnl]
      omega

/-- Witness for claim C5: the all-black 2×2 grid, dark palette, no
headers; the output has `⌈2/2⌉ + 2 = 3` lines. -/
theorem text_line_count_witness :
    (([] : List (List Char)) = [] ∧
      ("████\n█  █\n████\n".toList).count '\n' = (2 + 1) / 2 + 2) ∨
    (∃ ws, wrap 2 [] = some ws ∧
      ("████\n█  █\n████\n".toList).count '\n' = (2 + 1) / 2 + 4 + ws.length) :=
  text_line_count darkMode ⟨2, 2, fun _ _ => true⟩ []
    "████\n█  █\n████\n".toList (Or.inr rfl) (by decide) (by simp) (by rfl)


/-! ## The terminal renderer versus the dark text renderer: claim C6 -/

lemma not_mem_pad {ch : Char} (n : Int) (r : Char) (h : ch ≠ r) :
    ch ∉ pad n r := by
  intro hmem
  unfold pad at hmem
  split at hmem
  · simp at hmem
  · rw [List.mem_replicate] at hmem
    exact h hmem.2

lemma not_mem_rowPair {ch : Char} (rc : List Char) (g : Grid) (y : Nat)
    (hg : ∀ t b, getRune rc t b ≠ ch) : ch ∉ rowPair rc g y := by
  intro hmem
  unfold rowPair at hmem
  rw [List.mem_map] at hmem
  obtain ⟨x, _, hx⟩ := hmem
  exact hg _ _ hx

lemma not_mem_rowLast {ch : Char} (rc : List Char) (g : Grid) (y : Nat)
    (hg : ∀ t b, getRune rc t b ≠ ch) : ch ∉ rowLast rc g y := by
  intro hmem
  unfold rowLast at hmem
  rw [List.mem_map] at hmem
  obtain ⟨x, _, hx⟩ := hmem
  exact hg _ _ hx

lemma mem_trimSuffix {ch : Char} {s suf : List Char}
    (h : ch ∈ trimSuffix s suf) : ch ∈ s := by
  unfold trimSuffix at h
  split at h
  · exact List.take_subset _ _ h
  · exact h

lemma textAssemble_no_char (ch : Char) (rc : List Char) (g : Grid) (hh : Bool)
    (wr : Char) (head : List Char) (hwr : ch ≠ wr) (hwhole : ch ≠ whole)
    (hnl : ch ≠ '\n') (hg : ∀ t b, getRune rc t b ≠ ch) (hhead : ch ∉ head) :
    ch ∉ textAssemble rc g hh wr head := by
  have hpfx : ch ∉ textPfx hh wr := by
    cases hh <;> simp [textPfx]
    · exact hwr
    · exact ⟨hwhole, hwr⟩
  have hsfx : ch ∉ textSfx hh wr := by
    cases hh <;> simp [textSfx]
    · exact ⟨hwr, hnl⟩
    · exact ⟨hwr, hwhole, hnl⟩
  have hbody : ch ∉ textBody rc g (textSfx hh wr ++ textPfx hh wr) := by
    intro hm
    unfold textBody at hm
    rw [List.mem_flatten] at hm
    obtain ⟨l, hl, hml⟩ := hm
    rw [List.mem_map] at hl
    obtain ⟨k, _, rfl⟩ := hl
    rcases List.mem_append.1 hml with hm2 | hm2
    · exact not_mem_rowPair rc g _ hg hm2
    · rcases List.mem_append.1 hm2 with hm3 | hm3
      · exact hsfx hm3
      · exact hpfx hm3
  have hout1 : ch ∉ textOut1 rc g hh wr head := by
    intro hm
    unfold textOut1 at hm
    rcases List.mem_append.1 hm with hm1 | hm1
    · rcases List.mem_append.1 hm1 with hm2 | hm2
      · exact hhead hm2
      · exact hpfx hm2
    · exact hbody hm1
  intro hm
  unfold textAssemble at hm
  rcases List.mem_append.1 hm with hm1 | hm1
  · rcases List.mem_append.1 hm1 with hm2 | hm2
    · unfold textOut2 at hm2
      split at hm2
      · rcases List.mem_append.1 hm2 with hm3 | hm3
        · rcases List.mem_append.1 hm3 with hm4 | hm4
          · exact hout1 hm4
          · exact not_mem_rowLast rc g _ hg hm4
        · exact hsfx hm3
      · rcases List.mem_append.1 hm2 with hm3 | hm3
        · exact hout1 (mem_trimSuffix hm3)
        · exact hsfx hm3
    · exact not_mem_pad _ _ hwr hm2
  · simp at hm1
    exact hnl hm1

lemma headNone_no_char (ch : Char) (dx : Nat) (wr : Char) (hwr : ch ≠ wr)
    (hnl : ch ≠ '\n') : ch ∉ headNone dx wr := by
  intro hm
  unfold headNone at hm
  rcases List.mem_append.1 hm with hm1 | hm1
  · exact not_mem_pad _ _ hwr hm1
  · simp at hm1
    exact hnl hm1

lemma headTop_no_char (ch : Char) (dx : Nat) (hwhole : ch ≠ whole)
    (hupper : ch ≠ upper) (hnl : ch ≠ '\n') : ch ∉ headTop dx := by
  intro hm
  unfold headTop at hm
  rcases List.mem_append.1 hm with hm1 | hm1
  · rcases List.mem_append.1 hm1 with hm2 | hm2
    · rcases List.mem_append.1 hm2 with hm3 | hm3
      · simp at hm3
        exact hwhole hm3
      · exact not_mem_pad _ _ hupper hm3
    · simp at hm2
      exact hwhole hm2
  · simp at hm1
    exact hnl hm1

lemma headDiv_no_char (ch : Char) (dx : Nat) (wr : Char) (hwr : ch ≠ wr)
    (hwhole : ch ≠ whole) (hlower : ch ≠ lower) (hnl : ch ≠ '\n') :
    ch ∉ headDiv dx wr := by
  intro hm
  unfold headDiv at hm
  rcases List.mem_append.1 hm with hm1 | hm1
  · rcases List.mem_append.1 hm1 with hm2 | hm2
    · rcases List.mem_append.1 hm2 with hm3 | hm3
      · rcases List.mem_append.1 hm3 with hm4 | hm4
        · rcases List.mem_append.1 hm4 with hm5 | hm5
          · rcases List.mem_append.1 hm5 with hm6 | hm6
            · rcases List.mem_append.1 hm6 with hm7 | hm7
              · simp at hm7
                exact hwhole hm7
              · exact not_mem_pad _ _ hlower hm7
            · simp at hm6
              exact hwhole hm6
          · simp at hm5
            exact hnl hm5
        · simp at hm4
          exact hwhole hm4
      · exact not_mem_pad _ _ hwr hm3
    · simp at hm2
      exact hwhole hm2
  · simp at hm1
    exact hnl hm1

lemma headerLine_no_char (ch : Char) (dx : Nat) (v : List Char)
    (hwhole : ch ≠ whole) (hsp : ch ≠ blank) (hnl : ch ≠ '\n')
    (hv : ch ∉ v) : ch ∉ headerLine dx v := by
  intro hm
  unfold headerLine at hm
  rcases List.mem_append.1 hm with hm1 | hm1
  · rcases List.mem_append.1 hm1 with hm2 | hm2
    · rcases List.mem_append.1 hm2 with hm3 | hm3
      · rcases List.mem_append.1 hm3 with hm4 | hm4
        · simp at hm4
          rcases hm4 with h | h
          · exact hwhole h
          · exact hsp h
        · exact hv hm4
      · exact not_mem_pad _ _ hsp hm3
    · simp at hm2
      exact hwhole hm2
  · simp at hm1
    exact hnl hm1

lemma headSome_no_char (ch : Char) (dx : Nat) (wr : Char)
    (ws : List (List Char)) (hwr : ch ≠ wr) (hwhole : ch ≠ whole)
    (hupper : ch ≠ upper) (hlower : ch ≠ lower) (hsp : ch ≠ blank)
    (hnl : ch ≠ '\n') (hws : ∀ v ∈ ws, ch ∉ v) : ch ∉ headSome dx wr ws := by
  intro hm
  unfold headSome at hm
  rcases List.mem_append.1 hm with hm1 | hm1
  · rcases List.mem_append.1 hm1 with hm2 | hm2
    · exact headTop_no_char ch dx hwhole hupper hnl hm2
    · rw [List.mem_flatten] at hm2
      obtain ⟨l, hl, hml⟩ := hm2
      rw [List.mem_map] at hl
      obtain ⟨v, hv, rfl⟩ := hl
      exact headerLine_no_char ch dx v hwhole hsp hnl (hws v hv) hml
  · exact headDiv_no_char ch dx wr hwr hwhole hlower hnl hm1

lemma text_no_char (ch : Char) (rc : List Char) (g : Grid)
    (headers : List (List Char)) (out : List Char)
    (hwhole : ch ≠ whole) (hupper : ch ≠ upper) (hlower : ch ≠ lower)
    (hnl : ch ≠ '\n') (hd : ch ≠ '-') (hsp : ch ≠ ' ')
    (hg : ∀ t b, getRune rc t b ≠ ch)
    (hhead : ∀ h ∈ headers, ch ∉ h)
    (h : text (some rc) (some g) headers = some (Except.ok out)) :
    ch ∉ out := by
  have hwr : ch ≠ getRune rc false false := Ne.symm (hg false false)
  by_cases hhd : headers = []
  · rw [hhd] at h
    simp [text] at h
    rw [← h]
    exact textAssemble_no_char ch rc g false _ _ hwr hwhole hnl hg
      (headNone_no_char ch g.dx _ hwr hnl)
  · cases hws : wrap g.dx headers with
    | none => simp [text, hhd, hws] at h
    | some ws =>
      simp [text, hhd, hws] at h
      rw [← h]
      have hwsch : ∀ v ∈ ws, ch ∉ v :=
        wrap_chars ch hd hsp g.dx headers ws hhead hws
      exact textAssemble_no_char ch rc g true _ _ hwr hwhole hnl hg
        (headSome_no_char ch g.dx _ ws hwr hwhole hupper hlower hsp hnl hwsch)

lemma text_ok_ends (rc : List Char) (g : Grid) (headers : List (List Char))
    (out : List Char) (h : text (some rc) (some g) headers = some (Except.ok out)) :
    ∃ s₀, out = s₀ ++ ['\n'] := by
  by_cases hhd : headers = []
  · rw [hhd] at h
    simp [text] at h
    exact ⟨_, by rw [← h]; rfl⟩
  · cases hws : wrap g.dx headers with
    | none => simp [text, hhd, hws] at h
    | some ws =>
      simp [text, hhd, hws] at h
      exact ⟨_, by rw [← h]; rfl⟩

lemma stripAnsiAux_front (x : List Char) :
    stripAnsiAux false (front ++ x) = stripAnsiAux false x := rfl

lemma stripAnsiAux_back (x : List Char) :
    stripAnsiAux false (back ++ x) = '\n' :: stripAnsiAux false x := rfl

lemma stripAnsiAux_replaceNL (x : List Char) : ∀ s : List Char, '\x1b' ∉ s →
    stripAnsiAux false (replaceNL s (back ++ front) ++ x)
      = s ++ stripAnsiAux false x := by
  intro s
  induction s with
  | nil => intro _; rfl
  | cons c s' ih =>
    intro hs
    have hc : c ≠ '\x1b' := fun hcc => hs (hcc ▸ List.mem_cons_self _ _)
    have hs' : '\x1b' ∉ s' := fun hm => hs (List.mem_cons_of_mem _ hm)
    by_cases hcnl : c = '\n'
    · subst hcnl
      show stripAnsiAux false (((back ++ front) ++ replaceNL s' (back ++ front)) ++ x)
        = '\n' :: (s' ++ stripAnsiAux false x)
      rw [List.append_assoc, List.append_assoc, stripAnsiAux_back,
        stripAnsiAux_front, ih hs']
    · have hrw : replaceNL (c :: s') (back ++ front)
          = [c] ++ replaceNL s' (back ++ front) := by
        show (if c = '\n' then back ++ front else [c])
          ++ replaceNL s' (back ++ front) = _
        rw [if_neg hcnl]
      rw [hrw, List.append_assoc]
      show stripAnsiAux false (c :: (replaceNL s' (back ++ front) ++ x))
        = c :: (s' ++ stripAnsiAux false x)
      simp only [stripAnsiAux]
      rw [if_neg hc, ih hs']

/-- Claim C6: whenever the terminal renderer produces an output, stripping
its ANSI escapes yields exactly the dark-mode monospace rendering of the
same grid and headers (headers assumed free of literal escape
characters). -/
theorem terminal_strip_eq_dark_text (g : Grid) (headers : List (List Char))
    (out : List Char) (hhead : ∀ h ∈ headers, '\x1b' ∉ h)
    (h : terminal (some g) headers = some (Except.ok out)) :
    ∃ s, text (some darkMode) (some g) headers = some (Except.ok s) ∧
      stripAnsi out = s := by
  unfold terminal at h
  cases ht : text (some darkMode) (some g) headers with
  | none => rw [ht] at h; simp at h
  | some e =>
    cases e with
    | error msg => rw [ht] at h; simp at h
    | ok s =>
      rw [ht] at h
      simp only [Option.some.injEq, Except.ok.injEq] at h
      subst h
      refine ⟨s, rfl, ?_⟩
      have hesc : '\x1b' ∉ s := text_no_char '\x1b' darkMode g headers s
        (by decide) (by decide) (by decide) (by decide) (by decide) (by decide)
        (by intro t b; cases t <;> cases b <;> decide) hhead ht
      obtain ⟨s₀, rfl⟩ := text_ok_ends darkMode g headers s ht
      have hesc0 : '\x1b' ∉ s₀ := fun hm => hesc (List.mem_append.2 (Or.inl hm))
      have hrepl : replaceNL (s₀ ++ ['\n']) (back ++ front)
          = (replaceNL s₀ (back ++ front) ++ back) ++ front := by
        simp [replaceNL, List.append_assoc]
      show stripAnsi (front
        ++ trimSuffix (replaceNL (s₀ ++ ['\n']) (back ++ front)) front)
        = s₀ ++ ['\n']
      rw [hrepl, trimSuffix_append]
      unfold stripAnsi
      rw [stripAnsiAux_front, stripAnsiAux_replaceNL back s₀ hesc0]
      rfl

/-- Witness for claim C6: the all-black 2×2 grid with no headers; the
escape-decorated terminal output strips back to the dark rendering. -/
theorem terminal_strip_eq_dark_text_witness :
    ∃ s, text (some darkMode) (some ⟨2, 2, fun _ _ => true⟩) []
        = some (Except.ok s) ∧
      stripAnsi (front ++ "████".toList ++ back ++ front ++ "█  █".toList
        ++ back ++ front ++ "████".toList ++ back) = s :=
  terminal_strip_eq_dark_text ⟨2, 2, fun _ _ => true⟩ []
    (front ++ "████".toList ++ back ++ front ++ "█  █".toList ++ back
      ++ front ++ "████".toList ++ back) (by simp) (by rfl)

/-! ## Substring counting for the HTML renderer: claims C7 and C10.
Every piece of the HTML output ends in a newline and the counted patterns
contain none, so occurrences never span piece boundaries. -/

lemma isPrefixOf_append_nl (pat a b : List Char)
    (hlast : a.getLast? = some '\n') (hpat : '\n' ∉ pat) :
    pat.isPrefixOf (a ++ b) = pat.isPrefixOf a := by
  cases hp : pat.isPrefixOf a with
  | true =>
    rw [List.isPrefixOf_iff_prefix] at hp
    exact List.isPrefixOf_iff_prefix.2 (hp.trans (List.prefix_append a b))
  | false =>
    cases hq : pat.isPrefixOf (a ++ b) with
    | false => rfl
    | true =>
      exfalso
      rw [List.isPrefixOf_iff_prefix] at hq
      rw [List.prefix_iff_eq_take] at hq
      by_cases hlen : pat.length ≤ a.length
      · have h1 : pat = a.take pat.length := by
          conv_lhs => rw [hq]
          rw [List.take_append_eq_append_take, Nat.sub_eq_zero_of_le hlen]
          simp
        have h2 : pat.isPrefixOf a = true :=
          List.isPrefixOf_iff_prefix.2 (List.prefix_iff_eq_take.2 h1)
        rw [hp] at h2
        exact Bool.false_ne_true h2
      · push_neg at hlen
        have h1 : pat = a ++ (List.take (pat.length - a.length) b) := by
          conv_lhs => rw [hq]
          rw [List.take_append_eq_append_take]
          congr 1
          exact List.take_of_length_le (by omega)
        have h2 : '\n' ∈ pat := by
          rw [h1]
          refine List.mem_append.2 (Or.inl (List.mem_of_mem_getLast? ?_))
          rw [hlast]
          rfl
        exact hpat h2

lemma countSubstr_append (pat : List Char) (hpat : '\n' ∉ pat) :
    ∀ a b : List Char, a.getLast? = some '\n' →
    countSubstr (a ++ b) pat = countSubstr a pat + countSubstr b pat := by
  intro a
  induction a with
  | nil => intro b h; simp at h
  | cons c rest ih =>
    intro b hlast
    cases rest with
    | nil =>
      simp at hlast
      subst hlast
      have hpre : pat.isPrefixOf ('\n' :: b) = pat.isPrefixOf ['\n'] :=
        isPrefixOf_append_nl pat ['\n'] b rfl hpat
      show (if pat.isPrefixOf ('\n' :: b) then 1 else 0) + countSubstr b pat
        = ((if pat.isPrefixOf ['\n'] then 1 else 0) + countSubstr [] pat)
          + countSubstr b pat
      rw [hpre]
      simp [countSubstr]
    | cons d rest2 =>
      rw [List.getLast?_cons_cons] at hlast
      have hpre : pat.isPrefixOf (c :: (d :: rest2 ++ b))
          = pat.isPrefixOf (c :: d :: rest2) :=
        isPrefixOf_append_nl pat (c :: d :: rest2) b
          (by rw [List.getLast?_cons_cons]; exact hlast) hpat
      show (if pat.isPrefixOf (c :: (d :: rest2 ++ b)) then 1 else 0)
          + countSubstr ((d :: rest2) ++ b) pat
        = ((if pat.isPrefixOf (c :: d :: rest2) then 1 else 0)
          + countSubstr (d :: rest2) pat) + countSubstr b pat
      rw [hpre, ih b hlast]
      omega

lemma countSubstr_flatten_append (pat : List Char) (hpat : '\n' ∉ pat) :
    ∀ (L : List (List Char)) (t : List Char),
    (∀ p ∈ L, p.getLast? = some '\n') →
    countSubstr (L.flatten ++ t) pat
      = (L.map fun p => countSubstr p pat).sum + countSubstr t pat := by
  intro L
  induction L with
  | nil => intro t _; simp
  | cons p ps ih =>
    intro t hp
    simp only [List.flatten_cons, List.map_cons, List.sum_cons, List.append_assoc]
    rw [countSubstr_append pat hpat p _ (hp p (List.mem_cons_self _ _)),
      ih t fun q hq => hp q (List.mem_cons_of_mem _ hq)]
    omega

lemma countSubstr_skip (p0 : Char) (pr : List Char) :
    ∀ (h t : List Char), p0 ∉ h →
    countSubstr (h ++ t) (p0 :: pr) = countSubstr t (p0 :: pr) := by
  intro h
  induction h with
  | nil => intro t _; rfl
  | cons c rest ih =>
    intro t hn
    have hc : (p0 == c) = false := by
      simp only [beq_eq_false_iff_ne, ne_eq]
      exact fun he => hn (he ▸ List.mem_cons_self _ _)
    show (if (p0 :: pr).isPrefixOf (c :: (rest ++ t)) then 1 else 0)
        + countSubstr (rest ++ t) (p0 :: pr) = countSubstr t (p0 :: pr)
    have hpre : (p0 :: pr).isPrefixOf (c :: (rest ++ t)) = false := by
      show ((p0 == c) && pr.isPrefixOf (rest ++ t)) = false
      rw [hc]
      rfl
    rw [hpre, ih t fun hm => hn (List.mem_cons_of_mem _ hm)]
    simp

lemma countSubstr_zero_of_missing {c : Char} (pat : List Char) (hc : c ∈ pat) :
    ∀ s : List Char, c ∉ s → countSubstr s pat = 0 := by
  intro s
  induction s with
  | nil => intro _; rfl
  | cons d rest ih =>
    intro hs
    show (if pat.isPrefixOf (d :: rest) then 1 else 0) + countSubstr rest pat = 0
    have hpre : pat.isPrefixOf (d :: rest) = false := by
      cases hq : pat.isPrefixOf (d :: rest) with
      | false => rfl
      | true =>
        exfalso
        rw [List.isPrefixOf_iff_prefix] at hq
        exact hs (hq.subset hc)
    rw [hpre, ih fun hm => hs (List.mem_cons_of_mem _ hm)]
    simp

lemma countSubstr_header_atom (pr : List Char) (h : List Char) (hh : '<' ∉ h)
    (hp0 : ('<' :: pr).isPrefixOf
      ('<' :: 'p' :: '>' :: (h ++ "</p>\n".toList)) = false)
    (hz : countSubstr ("</p>\n".toList) ('<' :: pr) = 0) :
    countSubstr ("<p>".toList ++ h ++ "</p>\n".toList) ('<' :: pr) = 0 := by
  show (if ('<' :: pr).isPrefixOf
        ('<' :: 'p' :: '>' :: (h ++ "</p>\n".toList)) then 1 else 0)
      + ((if ('<' :: pr).isPrefixOf
          ('p' :: '>' :: (h ++ "</p>\n".toList)) then 1 else 0)
      + ((if ('<' :: pr).isPrefixOf
          ('>' :: (h ++ "</p>\n".toList)) then 1 else 0)
      + countSubstr (h ++ "</p>\n".toList) ('<' :: pr))) = 0
  have h1 : ('<' :: pr).isPrefixOf ('p' :: '>' :: (h ++ "</p>\n".toList)) = false := rfl
  have h2 : ('<' :: pr).isPrefixOf ('>' :: (h ++ "</p>\n".toList)) = false := rfl
  rw [hp0, h1, h2, countSubstr_skip '<' pr h _ hh, hz]
  simp

lemma sum_map_eq_const {f : Nat → Nat} (c : Nat) : ∀ (l : List Nat),
    (∀ x ∈ l, f x = c) → (l.map f).sum = l.length * c := by
  intro l
  induction l with
  | nil => simp
  | cons a as ih =>
    intro hf
    simp only [List.map_cons, List.sum_cons, List.length_cons]
    rw [hf a (List.mem_cons_self _ _), ih fun x hx => hf x (List.mem_cons_of_mem _ hx)]
    ring

lemma sum_map_ite_one (p : Nat → Bool) : ∀ n : Nat,
    ((List.range n).map fun x => if p x then (1 : Nat) else 0).sum
      = (List.range n).countP p := by
  intro n
  induction n with
  | zero => rfl
  | succ n ih =>
    rw [List.range_succ]
    simp only [List.map_append, List.sum_append, List.countP_append, ih,
      List.map_cons, List.map_nil, List.sum_cons, List.sum_nil]
    cases hp : p n <;> simp [List.countP_cons, hp]

lemma htmlCell_ends (b : Bool) :
    (if b then cellBlack else cellWhite).getLast? = some '\n' := by
  cases b <;> decide

lemma htmlRow_ends (g : Grid) (y : Nat) : (htmlRow g y).getLast? = some '\n' := by
  unfold htmlRow
  rw [List.getLast?_append]
  rfl

lemma htmlRow_count (pat : List Char) (hpat : '\n' ∉ pat) (g : Grid) (y : Nat) :
    countSubstr (htmlRow g y) pat = countSubstr ("<tr>\n".toList) pat
      + ((List.range g.dx).map fun x =>
          countSubstr (if g.px x y then cellBlack else cellWhite) pat).sum
      + countSubstr ("</tr>\n".toList) pat := by
  unfold htmlRow
  rw [List.append_assoc]
  rw [countSubstr_append pat hpat ("<tr>\n".toList) _ (by decide)]
  rw [countSubstr_flatten_append pat hpat _ _ fun p hp => by
    rw [List.mem_map] at hp
    obtain ⟨x, _, rfl⟩ := hp
    exact htmlCell_ends _]
  rw [List.map_map]
  simp only [Function.comp_def]
  omega

lemma html_count_master (pat : List Char) (hpat : '\n' ∉ pat)
    (hhr : countSubstr ("<hr>\n".toList) pat = 0)
    (g : Grid) (headers : List (List Char))
    (hhdr : ∀ h ∈ headers,
      countSubstr ("<p>".toList ++ h ++ "</p>\n".toList) pat = 0)
    (rc? : Option (List Char)) (out : List Char)
    (h : html rc? (some g) headers = .ok out) :
    countSubstr out pat = countSubstr divLine pat + countSubstr cssL pat
      + countSubstr tableOpen pat
      + ((List.range g.dy).map fun y => countSubstr (htmlRow g y) pat).sum
      + countSubstr tableClose pat := by
  have hrows : ∀ p ∈ (List.range g.dy).map (htmlRow g), p.getLast? = some '\n' := by
    intro p hp
    rw [List.mem_map] at hp
    obtain ⟨y, _, rfl⟩ := hp
    exact htmlRow_ends g y
  by_cases hh : headers = []
  · simp only [html, Except.ok.injEq, if_pos hh] at h
    rw [← h]
    simp only [List.append_nil, List.append_assoc]
    rw [countSubstr_append pat hpat divLine _ (by decide),
      countSubstr_append pat hpat cssL _ (by decide),
      countSubstr_append pat hpat tableOpen _ (by decide),
      countSubstr_flatten_append pat hpat _ _ hrows]
    rw [List.map_map]
    simp only [Function.comp_def]
    omega
  · simp only [html, Except.ok.injEq, if_neg hh] at h
    rw [← h]
    simp only [List.append_assoc]
    rw [countSubstr_append pat hpat divLine _ (by decide),
      countSubstr_append pat hpat cssL _ (by decide),
      countSubstr_flatten_append pat hpat _ _ fun p hp => by
        rw [List.mem_map] at hp
        obtain ⟨v, _, rfl⟩ := hp
        rw [List.getLast?_append, List.getLast?_append]
        rfl]
    have hzero : ((headers.map fun v =>
        "<p>".toList ++ (v ++ "</p>\n".toList)).map fun p => countSubstr p pat).sum
        = 0 := by
      apply List.sum_eq_zero
      intro x hx
      rw [List.map_map] at hx
      rw [List.mem_map] at hx
      obtain ⟨v, hv, rfl⟩ := hx
      exact hhdr v hv
    rw [hzero,
      countSubstr_append pat hpat ("<hr>\n".toList) _ (by decide), hhr,
      countSubstr_append pat hpat tableOpen _ (by decide),
      countSubstr_flatten_append pat hpat _ _ hrows]
    rw [List.map_map]
    simp only [Function.comp_def]
    omega


set_option maxRecDepth 8000 in
/-- Claim C7: the HTML renderer's output contains exactly `dy` `<tr>`
elements, each row exactly `dx` `<td>` cells, and the number of cells
classed `qrstr-black` equals the number of black pixels of the grid
(headers assumed to be plain text, without `<` or `"`). -/
theorem html_counts (rc? : Option (List Char)) (g : Grid)
    (headers : List (List Char)) (out : List Char)
    (_hdx : 1 ≤ g.dx) (_hdy : 1 ≤ g.dy)
    (hhead : ∀ h ∈ headers, '<' ∉ h ∧ '"' ∉ h)
    (h : html rc? (some g) headers = .ok out) :
    countSubstr out "<tr>".toList = g.dy ∧
    (∀ y, countSubstr (htmlRow g y) "<td".toList = g.dx) ∧
    countSubstr out "<td".toList = g.dy * g.dx ∧
    countSubstr out "<td class=\"qrstr-black\"".toList = blackCount g := by
  have hrow_tr : ∀ y, countSubstr (htmlRow g y) "<tr>".toList = 1 := by
    intro y
    rw [htmlRow_count _ (by decide) g y]
    have hcell : ∀ x ∈ List.range g.dx,
        countSubstr (if g.px x y then cellBlack else cellWhite)
          "<tr>".toList = 0 := by
      intro x _
      cases hpx : g.px x y <;> decide
    rw [sum_map_eq_const 0 _ hcell, Nat.mul_zero]
    decide
  have hrow_td : ∀ y, countSubstr (htmlRow g y) "<td".toList = g.dx := by
    intro y
    rw [htmlRow_count _ (by decide) g y]
    have hcell : ∀ x ∈ List.range g.dx,
        countSubstr (if g.px x y then cellBlack else cellWhite)
          "<td".toList = 1 := by
      intro x _
      cases hpx : g.px x y <;> decide
    rw [sum_map_eq_const 1 _ hcell, List.length_range]
    have h1 : countSubstr "<tr>\n".toList "<td".toList = 0 := by decide
    have h2 : countSubstr "</tr>\n".toList "<td".toList = 0 := by decide
    rw [h1, h2]
    omega
  have hrow_bl : ∀ y, countSubstr (htmlRow g y)
      "<td class=\"qrstr-black\"".toList
      = (List.range g.dx).countP fun x => g.px x y := by
    intro y
    rw [htmlRow_count _ (by decide) g y]
    have hfun : (fun x => countSubstr
        (if g.px x y then cellBlack else cellWhite)
        "<td class=\"qrstr-black\"".toList)
        = fun x => if g.px x y then (1 : Nat) else 0 := by
      funext x
      cases hpx : g.px x y <;> decide
    rw [hfun, sum_map_ite_one]
    have h1 : countSubstr "<tr>\n".toList
      "<td class=\"qrstr-black\"".toList = 0 := by decide
    have h2 : countSubstr "</tr>\n".toList
      "<td class=\"qrstr-black\"".toList = 0 := by decide
    rw [h1, h2]
    omega
  have hq : ('"' : Char) ∈ "<td class=\"qrstr-black\"".toList := by decide
  refine ⟨?_, hrow_td, ?_, ?_⟩
  · rw [html_count_master "<tr>".toList (by decide) (by decide) g headers
      (fun hd hm => countSubstr_header_atom ['t', 'r', '>'] hd
        (hhead hd hm).1 (by rfl) (by decide)) rc? out h]
    rw [sum_map_eq_const 1 _ (fun y _ => hrow_tr y), List.length_range]
    have h1 : countSubstr divLine "<tr>".toList = 0 := by decide
    have h2 : countSubstr cssL "<tr>".toList = 0 := by decide
    have h3 : countSubstr tableOpen "<tr>".toList = 0 := by decide
    have h4 : countSubstr tableClose "<tr>".toList = 0 := by decide
    rw [h1, h2, h3, h4]
    omega
  · rw [html_count_master "<td".toList (by decide) (by decide) g headers
      (fun hd hm => countSubstr_header_atom ['t', 'd'] hd
        (hhead hd hm).1 (by rfl) (by decide)) rc? out h]
    rw [sum_map_eq_const g.dx _ (fun y _ => hrow_td y), List.length_range]
    have h1 : countSubstr divLine "<td".toList = 0 := by decide
    have h2 : countSubstr cssL "<td".toList = 0 := by decide
    have h3 : countSubstr tableOpen "<td".toList = 0 := by decide
    have h4 : countSubstr tableClose "<td".toList = 0 := by decide
    rw [h1, h2, h3, h4]
    omega
  · rw [html_count_master "<td class=\"qrstr-black\"".toList (by decide)
      (by decide) g headers (fun hd hm => countSubstr_zero_of_missing _ hq _
        fun hmem => by
          rcases List.mem_append.1 hmem with h1 | h1
          · rcases List.mem_append.1 h1 with h2 | h2
            · exact absurd h2 (by decide)
            · exact (hhead hd hm).2 h2
          · exact absurd h1 (by decide)) rc? out h]
    have hfun2 : (fun y => countSubstr (htmlRow g y)
        "<td class=\"qrstr-black\"".toList)
        = fun y => (List.range g.dx).countP fun x => g.px x y :=
      funext fun y => hrow_bl y
    rw [hfun2]
    have h1 : countSubstr divLine "<td class=\"qrstr-black\"".toList = 0 := by
      decide
    have h2 : countSubstr cssL "<td class=\"qrstr-black\"".toList = 0 := by
      decide
    have h3 : countSubstr tableOpen "<td class=\"qrstr-black\"".toList = 0 := by
      decide
    have h4 : countSubstr tableClose "<td class=\"qrstr-black\"".toList = 0 := by
      decide
    rw [h1, h2, h3, h4]
    unfold blackCount
    omega

set_option maxRecDepth 8000 in
/-- Witness for claim C7 on the 1×1 all-black grid with no headers. -/
theorem html_counts_witness :
    countSubstr (divLine ++ cssL ++ tableOpen
        ++ htmlRow ⟨1, 1, fun _ _ => true⟩ 0 ++ tableClose)
      "<tr>".toList = 1 ∧
    (∀ y, countSubstr (htmlRow (⟨1, 1, fun _ _ => true⟩ : Grid) y)
      "<td".toList = 1) ∧
    countSubstr (divLine ++ cssL ++ tableOpen
        ++ htmlRow ⟨1, 1, fun _ _ => true⟩ 0 ++ tableClose)
      "<td".toList = 1 * 1 ∧
    countSubstr (divLine ++ cssL ++ tableOpen
        ++ htmlRow ⟨1, 1, fun _ _ => true⟩ 0 ++ tableClose)
      "<td class=\"qrstr-black\"".toList
      = blackCount ⟨1, 1, fun _ _ => true⟩ :=
  html_counts none ⟨1, 1, fun _ _ => true⟩ []
    (divLine ++ cssL ++ tableOpen ++ htmlRow ⟨1, 1, fun _ _ => true⟩ 0
      ++ tableClose)
    (by decide) (by decide) (by simp) (by rfl)

set_option maxRecDepth 8000 in
/-- Claim C10: the HTML table opener is emitted literally as
`<table class"qrstr-code"` (the `=` is missing in qr.go line 234), so the
output contains that malformed text exactly once and never contains a
well-formed `class="qrstr-code"` attribute — the `.qrstr-code` stylesheet
rules can therefore never bind to the table (headers assumed not to
contain `"`). -/
theorem html_table_class_missing_eq (rc? : Option (List Char)) (g : Grid)
    (headers : List (List Char)) (out : List Char)
    (hhead : ∀ h ∈ headers, '"' ∉ h)
    (h : html rc? (some g) headers = .ok out) :
    countSubstr out "<table class\"qrstr-code\"".toList = 1 ∧
    countSubstr out "class=\"qrstr-code\"".toList = 0 := by
  have hatom : ∀ (pat : List Char), ('"' : Char) ∈ pat →
      ('"' : Char) ∉ "<p>".toList → ('"' : Char) ∉ "</p>\n".toList →
      ∀ hd ∈ headers,
      countSubstr ("<p>".toList ++ hd ++ "</p>\n".toList) pat = 0 := by
    intro pat hq hq1 hq2 hd hm
    apply countSubstr_zero_of_missing pat hq
    intro hmem
    rcases List.mem_append.1 hmem with h1 | h1
    · rcases List.mem_append.1 h1 with h2 | h2
      · exact hq1 h2
      · exact hhead hd hm h2
    · exact hq2 h1
  constructor
  · rw [html_count_master "<table class\"qrstr-code\"".toList (by decide)
      (by decide) g headers
      (hatom _ (by decide) (by decide) (by decide)) rc? out h]
    have hrow : ∀ y ∈ List.range g.dy, countSubstr (htmlRow g y)
        "<table class\"qrstr-code\"".toList = 0 := by
      intro y _
      rw [htmlRow_count _ (by decide) g y]
      have hcell : ∀ x ∈ List.range g.dx,
          countSubstr (if g.px x y then cellBlack else cellWhite)
            "<table class\"qrstr-code\"".toList = 0 := by
        intro x _
        cases hpx : g.px x y <;> decide
      rw [sum_map_eq_const 0 _ hcell, Nat.mul_zero]
      decide
    rw [sum_map_eq_const 0 _ hrow, Nat.mul_zero]
    decide
  · rw [html_count_master "class=\"qrstr-code\"".toList (by decide)
      (by decide) g headers
      (hatom _ (by decide) (by decide) (by decide)) rc? out h]
    have hrow : ∀ y ∈ List.range g.dy, countSubstr (htmlRow g y)
        "class=\"qrstr-code\"".toList = 0 := by
      intro y _
      rw [htmlRow_count _ (by decide) g y]
      have hcell : ∀ x ∈ List.range g.dx,
          countSubstr (if g.px x y then cellBlack else cellWhite)
            "class=\"qrstr-code\"".toList = 0 := by
        intro x _
        cases hpx : g.px x y <;> decide
      rw [sum_map_eq_const 0 _ hcell, Nat.mul_zero]
      decide
    rw [sum_map_eq_const 0 _ hrow, Nat.mul_zero]
    decide

set_option maxRecDepth 8000 in
/-- Witness for claim C10 on the 1×1 all-black grid with no headers. -/
theorem html_table_class_missing_eq_witness :
    countSubstr (divLine ++ cssL ++ tableOpen
        ++ htmlRow ⟨1, 1, fun _ _ => true⟩ 0 ++ tableClose)
      "<table class\"qrstr-code\"".toList = 1 ∧
    countSubstr (divLine ++ cssL ++ tableOpen
        ++ htmlRow ⟨1, 1, fun _ _ => true⟩ 0 ++ tableClose)
      "class=\"qrstr-code\"".toList = 0 :=
  html_table_class_missing_eq none ⟨1, 1, fun _ _ => true⟩ []
    (divLine ++ cssL ++ tableOpen ++ htmlRow ⟨1, 1, fun _ _ => true⟩ 0
      ++ tableClose)
    (by simp) (by rfl)


end QR
